import Mathlib

set_option maxRecDepth 8192

/-!
Verification of the cache-and-count web-fetch wrapper (`0x02-redis_basic/web.py`).

The module under study wraps a one-argument fetch function with a Redis-backed
cache and a per-URL access counter:

  - `cache_and_count(expiration=10)` is a decorator factory; the produced
    `wrapper(url)` increments `count:<url>`, reads `cache:<url>`, returns the
    decoded cached bytes when they are truthy, and otherwise invokes the wrapped
    function, writes the result with `setex(cache_key, expiration, result)` and
    returns it;
  - `get_page(url)` performs `requests.get(url)` and returns `response.text`.

The embedding models the Redis key space as a function from keys to optional
entries (value plus optional absolute expiry time), models time as a natural
number passed to each call, and models byte strings as lists of naturals.
Python's strict UTF-8 codec (used by `redis-py` when a `str` is stored and by
`bytes.decode('utf-8')` on a hit) is embedded as `utf8Encode` / `utf8Decode`.
-/

/-- UTF-8 encoding of one Unicode scalar value `v`, as a list of byte values.
This is the algorithm used by Python's `str.encode('utf-8')` for each code
point of the string. -/
def utf8EncodeNat (v : Nat) : List Nat :=
  if v < 0x80 then
    [v]
  else if v < 0x800 then
    [0xC0 + v / 64, 0x80 + v % 64]
  else if v < 0x10000 then
    [0xE0 + v / 4096, 0x80 + v / 64 % 64, 0x80 + v % 64]
  else
    [0xF0 + v / 262144, 0x80 + v / 4096 % 64, 0x80 + v / 64 % 64, 0x80 + v % 64]

/-- UTF-8 encoding of a string: each character's scalar value encoded in turn.
Models Python's `str.encode('utf-8')`. -/
def utf8Encode (s : String) : List Nat :=
  s.data.flatMap (fun c => utf8EncodeNat c.toNat)

/-- Decode one UTF-8 sequence whose first byte is `b0` and whose remaining
bytes start the list `tl`; return the decoded scalar value and the unconsumed
suffix.  Rejects truncated sequences, stray continuation bytes, overlong
forms, surrogates and out-of-range values, as Python's strict
`bytes.decode('utf-8')` does. -/
def utf8DecodeStep (b0 : Nat) (tl : List Nat) : Option (Nat × List Nat) :=
  if b0 < 0x80 then
    some (b0, tl)
  else if b0 < 0xE0 then
    match tl with
    | b1 :: tl1 =>
      if 0xC2 ≤ b0 ∧ 0x80 ≤ b1 ∧ b1 < 0xC0 then
        some ((b0 - 0xC0) * 64 + (b1 - 0x80), tl1)
      else none
    | [] => none
  else if b0 < 0xF0 then
    match tl with
    | b1 :: b2 :: tl2 =>
      if 0x80 ≤ b1 ∧ b1 < 0xC0 ∧ 0x80 ≤ b2 ∧ b2 < 0xC0 then
        if 0x800 ≤ (b0 - 0xE0) * 4096 + (b1 - 0x80) * 64 + (b2 - 0x80) ∧
            ((b0 - 0xE0) * 4096 + (b1 - 0x80) * 64 + (b2 - 0x80) < 0xD800 ∨
             0xDFFF < (b0 - 0xE0) * 4096 + (b1 - 0x80) * 64 + (b2 - 0x80)) then
          some ((b0 - 0xE0) * 4096 + (b1 - 0x80) * 64 + (b2 - 0x80), tl2)
        else none
      else none
    | _ => none
  else
    match tl with
    | b1 :: b2 :: b3 :: tl3 =>
      if b0 < 0xF8 ∧ 0x80 ≤ b1 ∧ b1 < 0xC0 ∧ 0x80 ≤ b2 ∧ b2 < 0xC0 ∧
          0x80 ≤ b3 ∧ b3 < 0xC0 then
        if 0x10000 ≤ (b0 - 0xF0) * 262144 + (b1 - 0x80) * 4096 + (b2 - 0x80) * 64 + (b3 - 0x80) ∧
            (b0 - 0xF0) * 262144 + (b1 - 0x80) * 4096 + (b2 - 0x80) * 64 + (b3 - 0x80) < 0x110000 then
          some ((b0 - 0xF0) * 262144 + (b1 - 0x80) * 4096 + (b2 - 0x80) * 64 + (b3 - 0x80), tl3)
        else none
      else none
    | _ => none

theorem utf8DecodeStep_length {b0 : Nat} {tl rest : List Nat} {v : Nat}
    (h : utf8DecodeStep b0 tl = some (v, rest)) : rest.length ≤ tl.length := by
  unfold utf8DecodeStep at h
  split at h
  · cases h; exact Nat.le_refl _
  · split at h
    · split at h
      · split at h
        · cases h; simp
        · cases h
      · cases h
    · split at h
      · split at h
        · split at h
          · split at h
            · cases h; simp; omega
            · cases h
          · cases h
        · cases h
      · split at h
        · split at h
          · split at h
            · cases h; simp; omega
            · cases h
          · cases h
        · cases h

/-- Fuel-indexed strict UTF-8 decoding loop; the fuel only serves the
termination argument and is irrelevant as soon as it covers the length of the
input (`utf8DecodeListAux_congr`). -/
def utf8DecodeListAux : Nat → List Nat → Option (List Nat)
  | _, [] => some []
  | 0, _ :: _ => none
  | fuel + 1, b0 :: tl =>
    match utf8DecodeStep b0 tl with
    | some (v, rest) => (utf8DecodeListAux fuel rest).map (fun vs => v :: vs)
    | none => none

/-- Strict UTF-8 decoding of a byte list into the list of scalar values. -/
def utf8DecodeList (b : List Nat) : Option (List Nat) :=
  utf8DecodeListAux b.length b

theorem utf8DecodeListAux_congr (fuel fuel' : Nat) (b : List Nat)
    (h : b.length ≤ fuel) (h' : b.length ≤ fuel') :
    utf8DecodeListAux fuel b = utf8DecodeListAux fuel' b := by
  induction fuel generalizing fuel' b with
  | zero =>
    cases b with
    | nil => cases fuel' <;> rfl
    | cons b0 tl => simp at h
  | succ n ih =>
    cases b with
    | nil => cases fuel' <;> rfl
    | cons b0 tl =>
      cases fuel' with
      | zero => simp at h'
      | succ m =>
        rw [utf8DecodeListAux, utf8DecodeListAux]
        cases hstep : utf8DecodeStep b0 tl with
        | none => rfl
        | some p =>
          obtain ⟨v, rest⟩ := p
          have hlen := utf8DecodeStep_length hstep
          simp only [List.length_cons] at h h'
          show Option.map (fun vs => v :: vs) (utf8DecodeListAux n rest) =
            Option.map (fun vs => v :: vs) (utf8DecodeListAux m rest)
          rw [ih m rest (by omega) (by omega)]

/-- Strict UTF-8 decoding of a byte list into a string.
Models Python's `bytes.decode('utf-8')`: `none` models a raised
`UnicodeDecodeError`. -/
def utf8Decode (b : List Nat) : Option String :=
  (utf8DecodeList b).map (fun vs => ⟨vs.map Char.ofNat⟩)

theorem utf8EncodeNat_ne_nil (v : Nat) : utf8EncodeNat v ≠ [] := by
  unfold utf8EncodeNat
  split_ifs <;> simp

/-- Decoding one step of the encoding of a valid scalar value recovers exactly
that value and leaves the trailing bytes untouched. -/
theorem utf8DecodeStep_encode (v : Nat)
    (hv : v < 0xD800 ∨ (0xDFFF < v ∧ v < 0x110000)) (tl : List Nat) :
    ∃ b0 e, utf8EncodeNat v = b0 :: e ∧
      utf8DecodeStep b0 (e ++ tl) = some (v, tl) := by
  by_cases h1 : v < 0x80
  · refine ⟨v, [], ?_, ?_⟩
    · unfold utf8EncodeNat; rw [if_pos h1]
    · unfold utf8DecodeStep; rw [if_pos h1]; rfl
  · by_cases h2 : v < 0x800
    · refine ⟨0xC0 + v / 64, [0x80 + v % 64], ?_, ?_⟩
      · unfold utf8EncodeNat; rw [if_neg h1, if_pos h2]
      · unfold utf8DecodeStep
        rw [if_neg (by omega), if_pos (by omega)]
        show (if 0xC2 ≤ 0xC0 + v / 64 ∧ 0x80 ≤ 0x80 + v % 64 ∧ 0x80 + v % 64 < 0xC0 then
            some ((0xC0 + v / 64 - 0xC0) * 64 + (0x80 + v % 64 - 0x80), tl)
          else none) = some (v, tl)
        rw [if_pos (by omega)]
        have hval : (0xC0 + v / 64 - 0xC0) * 64 + (0x80 + v % 64 - 0x80) = v := by omega
        rw [hval]
    · by_cases h3 : v < 0x10000
      · refine ⟨0xE0 + v / 4096, [0x80 + v / 64 % 64, 0x80 + v % 64], ?_, ?_⟩
        · unfold utf8EncodeNat; rw [if_neg h1, if_neg h2, if_pos h3]
        · unfold utf8DecodeStep
          rw [if_neg (by omega), if_neg (by omega), if_pos (by omega)]
          show (if 0x80 ≤ 0x80 + v / 64 % 64 ∧ 0x80 + v / 64 % 64 < 0xC0 ∧
                0x80 ≤ 0x80 + v % 64 ∧ 0x80 + v % 64 < 0xC0 then
              if 0x800 ≤ (0xE0 + v / 4096 - 0xE0) * 4096 +
                  (0x80 + v / 64 % 64 - 0x80) * 64 + (0x80 + v % 64 - 0x80) ∧
                  ((0xE0 + v / 4096 - 0xE0) * 4096 +
                    (0x80 + v / 64 % 64 - 0x80) * 64 + (0x80 + v % 64 - 0x80) < 0xD800 ∨
                   0xDFFF < (0xE0 + v / 4096 - 0xE0) * 4096 +
                    (0x80 + v / 64 % 64 - 0x80) * 64 + (0x80 + v % 64 - 0x80)) then
                some ((0xE0 + v / 4096 - 0xE0) * 4096 +
                  (0x80 + v / 64 % 64 - 0x80) * 64 + (0x80 + v % 64 - 0x80), tl)
              else none
            else none) = some (v, tl)
          have hval : (0xE0 + v / 4096 - 0xE0) * 4096 +
              (0x80 + v / 64 % 64 - 0x80) * 64 + (0x80 + v % 64 - 0x80) = v := by omega
          rw [hval, if_pos (by omega), if_pos (by omega)]
      · refine ⟨0xF0 + v / 262144,
          [0x80 + v / 4096 % 64, 0x80 + v / 64 % 64, 0x80 + v % 64], ?_, ?_⟩
        · unfold utf8EncodeNat; rw [if_neg h1, if_neg h2, if_neg h3]
        · have hv4 : 0x10000 ≤ v ∧ v < 0x110000 := by omega
          unfold utf8DecodeStep
          rw [if_neg (by omega), if_neg (by omega), if_neg (by omega)]
          show (if 0xF0 + v / 262144 < 0xF8 ∧ 0x80 ≤ 0x80 + v / 4096 % 64 ∧
                0x80 + v / 4096 % 64 < 0xC0 ∧ 0x80 ≤ 0x80 + v / 64 % 64 ∧
                0x80 + v / 64 % 64 < 0xC0 ∧ 0x80 ≤ 0x80 + v % 64 ∧ 0x80 + v % 64 < 0xC0 then
              if 0x10000 ≤ (0xF0 + v / 262144 - 0xF0) * 262144 +
                  (0x80 + v / 4096 % 64 - 0x80) * 4096 +
                  (0x80 + v / 64 % 64 - 0x80) * 64 + (0x80 + v % 64 - 0x80) ∧
                  (0xF0 + v / 262144 - 0xF0) * 262144 +
                  (0x80 + v / 4096 % 64 - 0x80) * 4096 +
                  (0x80 + v / 64 % 64 - 0x80) * 64 + (0x80 + v % 64 - 0x80) < 0x110000 then
                some ((0xF0 + v / 262144 - 0xF0) * 262144 +
                  (0x80 + v / 4096 % 64 - 0x80) * 4096 +
                  (0x80 + v / 64 % 64 - 0x80) * 64 + (0x80 + v % 64 - 0x80), tl)
              else none
            else none) = some (v, tl)
          have hval : (0xF0 + v / 262144 - 0xF0) * 262144 +
              (0x80 + v / 4096 % 64 - 0x80) * 4096 +
              (0x80 + v / 64 % 64 - 0x80) * 64 + (0x80 + v % 64 - 0x80) = v := by omega
          rw [hval, if_pos (by omega), if_pos (by omega)]

/-- Decoding the encoding of one valid scalar value at the head of a byte
stream recovers exactly that value. -/
theorem utf8DecodeList_encode_cons (v : Nat)
    (hv : v < 0xD800 ∨ (0xDFFF < v ∧ v < 0x110000)) (tl : List Nat) :
    utf8DecodeList (utf8EncodeNat v ++ tl) =
      (utf8DecodeList tl).map (fun vs => v :: vs) := by
  obtain ⟨b0, e, he, hstep⟩ := utf8DecodeStep_encode v hv tl
  rw [utf8DecodeList, utf8DecodeList, he, List.cons_append, List.length_cons,
    utf8DecodeListAux, hstep]
  show Option.map (fun vs => v :: vs) (utf8DecodeListAux (e ++ tl).length tl) =
    Option.map (fun vs => v :: vs) (utf8DecodeListAux tl.length tl)
  rw [utf8DecodeListAux_congr (e ++ tl).length tl.length tl (by simp) (by simp)]

theorem char_toNat_valid (c : Char) :
    c.toNat < 0xD800 ∨ (0xDFFF < c.toNat ∧ c.toNat < 0x110000) := by
  cases c.valid with
  | inl h => exact Or.inl (UInt32.toNat_lt_of_lt (by decide) h)
  | inr h =>
    exact Or.inr ⟨UInt32.lt_toNat_of_lt (by decide) h.1,
      UInt32.toNat_lt_of_lt (by decide) h.2⟩

theorem utf8DecodeList_utf8Encode (s : String) :
    utf8DecodeList (utf8Encode s) = some (s.data.map Char.toNat) := by
  show utf8DecodeList (s.data.flatMap (fun c => utf8EncodeNat c.toNat)) = _
  induction s.data with
  | nil => rfl
  | cons c cs ih =>
    rw [List.flatMap_cons, utf8DecodeList_encode_cons c.toNat (char_toNat_valid c), ih]
    rfl

/-- Decode-after-encode is the identity on strings: the embedded model of
Python's `result.encode('utf-8')` (performed by the store on `setex`) followed
by `cached_result.decode('utf-8')` (performed on a hit) returns the original
string. -/
theorem utf8Decode_utf8Encode (s : String) : utf8Decode (utf8Encode s) = some s := by
  rw [utf8Decode, utf8DecodeList_utf8Encode, Option.map_some']
  have hmap : (s.data.map Char.toNat).map Char.ofNat = s.data := by
    rw [List.map_map]
    have hco : (Char.ofNat ∘ Char.toNat) = id := by
      funext c
      exact Char.ofNat_toNat c
    rw [hco, List.map_id]
  cases s with
  | mk data => simp only [hmap]

theorem utf8Encode_eq_nil_iff (s : String) : utf8Encode s = [] ↔ s = "" := by
  cases s with
  | mk data =>
    cases data with
    | nil => constructor <;> intro <;> rfl
    | cons c cs =>
      constructor
      · intro h
        exfalso
        rw [utf8Encode] at h
        simp only [List.flatMap_cons, List.append_eq_nil] at h
        exact utf8EncodeNat_ne_nil c.toNat h.1
      · intro h
        exact absurd (congrArg String.data h) (by simp)

/-!
## The Redis key space model

The store maps keys to entries; an entry is a value with an optional absolute
expiry time.  Time is a natural number passed to each operation.
-/

/-- A Redis value: Redis stores byte strings; integer strings are kept with an
integer object encoding, which is what `INCR` manipulates. -/
inductive RVal where
  | int (n : Int)
  | bytes (b : List Nat)
deriving DecidableEq

/-- A stored entry: a value together with its optional absolute expiry time
(`none` means the key persists). -/
structure Entry where
  val : RVal
  expiry : Option Nat
deriving DecidableEq

/-- The Redis key space. -/
abbrev Store := String → Option Entry

def Store.set (s : Store) (k : String) (e : Entry) : Store :=
  fun q => if q = k then some e else s q

/-- Visibility of a key at absolute time `now`: an entry is visible while it
has not expired. -/
def Store.getAt (s : Store) (k : String) (now : Nat) : Option RVal :=
  match s k with
  | none => none
  | some e =>
    match e.expiry with
    | none => some e.val
    | some t => if now < t then some e.val else none

/-- The decimal byte representation Redis hands back on `GET` for an
integer-encoded value. -/
def intToBytes (n : Int) : List Nat :=
  (toString n).data.map Char.toNat

/-- `redis_client.get(key)` at time `now`: the stored bytes, or `none` for an
absent or expired key. -/
def Store.getBytesAt (s : Store) (k : String) (now : Nat) : Option (List Nat) :=
  match Store.getAt s k now with
  | none => none
  | some (RVal.bytes b) => some b
  | some (RVal.int n) => some (intToBytes n)

def Store.expiryOf (s : Store) (k : String) : Option Nat :=
  match s k with
  | none => none
  | some e => e.expiry

/-- `redis_client.incr(key)` at time `now`: an absent or expired key is created
as the integer 1 with no expiration; a live integer is incremented in place,
keeping whatever time to live it had; `none` models the `ResponseError` Redis
raises when the live value is not an integer. -/
def incrAt (s : Store) (k : String) (now : Nat) : Option Store :=
  match Store.getAt s k now with
  | none => some (Store.set s k ⟨RVal.int 1, none⟩)
  | some (RVal.int n) => some (Store.set s k ⟨RVal.int (n + 1), Store.expiryOf s k⟩)
  | some (RVal.bytes _) => none

/-- `redis_client.setex(key, ttl, value)` at time `now`: stores the UTF-8
encoding of the string value, expiring `ttl` seconds from now. -/
def setexAt (s : Store) (k : String) (ttl : Nat) (v : String) (now : Nat) : Store :=
  Store.set s k ⟨RVal.bytes (utf8Encode v), some (now + ttl)⟩

/-!
## The embedded source (`0x02-redis_basic/web.py`)
-/

/-- Exceptions that can escape the wrapped function: an exception raised by the
wrapped fetch function, a `UnicodeDecodeError` from `.decode('utf-8')`, or a
Redis `ResponseError` from `INCR` on a non-integer value. -/
inductive PyExc (ε : Type) where
  | fetchExc (e : ε)
  | unicodeDecodeExc
  | responseExc
deriving DecidableEq

/-- The observable outcome of one call of the wrapped function: the returned
value or escaped exception, the key space afterwards, and how many times the
wrapped fetch function was invoked during the call. -/
structure RunResult (ε : Type) where
  ret : Except (PyExc ε) String
  store : Store
  fetchCalls : Nat

/-- Lines 36-42 of `web.py`, the cache-miss path: `func` is called once; on
success the result is written with `setex(cache_key, expiration, result)` and
returned; an exception from `func` propagates with nothing written. -/
def fetchAndCache (expiration : Nat) (func : String → Except ε String)
    (url : String) (now : Nat) (s : Store) : RunResult ε :=
  match func url with
  | Except.error e => ⟨Except.error (PyExc.fetchExc e), s, 1⟩
  | Except.ok result =>
      ⟨Except.ok result, setexAt s ("cache:" ++ url) expiration result now, 1⟩

/-- The body of `wrapper(url)` in `web.py` (lines 21-42): increment
`count:<url>`, read `cache:<url>`; if the bytes read are truthy (present and
non-empty), return them decoded as UTF-8; otherwise call the wrapped function
and cache its result. -/
def wrapper (expiration : Nat) (func : String → Except ε String)
    (url : String) (now : Nat) (s : Store) : RunResult ε :=
  match incrAt s ("count:" ++ url) now with
  | none => ⟨Except.error PyExc.responseExc, s, 0⟩
  | some s1 =>
    match Store.getBytesAt s1 ("cache:" ++ url) now with
    | some bs =>
      if bs ≠ [] then
        match utf8Decode bs with
        | some v => ⟨Except.ok v, s1, 0⟩
        | none => ⟨Except.error PyExc.unicodeDecodeExc, s1, 0⟩
      else fetchAndCache expiration func url now s1
    | none => fetchAndCache expiration func url now s1

/-- The decorator factory `cache_and_count(expiration)` applied to a function. -/
def cache_and_count (expiration : Nat) (func : String → Except ε String) :
    String → Nat → Store → RunResult ε :=
  fun url now s => wrapper expiration func url now s

/-- The default of the `expiration` parameter of `cache_and_count`; the
decorator is applied to `get_page` as `@cache_and_count()`, i.e. with this
default. -/
def defaultExpiration : Nat := 10

/-- The HTTP response model for `requests.get`: a status code and a body. -/
structure Response where
  status : Nat
  text : String
deriving DecidableEq

/-- The body of `get_page` (lines 58-59 of `web.py`): perform the HTTP request
and return `response.text`; an exception raised by `requests.get` (network
error, timeout) propagates.  No status check is performed. -/
def get_page_body (http : String → Except ε Response) (url : String) :
    Except ε String :=
  match http url with
  | Except.ok resp => Except.ok resp.text
  | Except.error e => Except.error e

/-- `get_page` as exported by the module: the body wrapped by
`@cache_and_count()`. -/
def get_page (http : String → Except ε Response) :
    String → Nat → Store → RunResult ε :=
  cache_and_count defaultExpiration (get_page_body http)

/-!
## Derived state predicates
-/

/-- The value under the counter key is usable by `INCR` at time `now` (absent,
expired, or a live integer).  Every state the wrapper itself produces satisfies
this. -/
def countOkAt (s : Store) (url : String) (now : Nat) : Prop :=
  match Store.getAt s ("count:" ++ url) now with
  | some (RVal.bytes _) => False
  | _ => True

/-- The integer value of the counter visible at time `now` (0 when absent,
expired or non-integer). -/
def counterVal (s : Store) (url : String) (now : Nat) : Int :=
  match Store.getAt s ("count:" ++ url) now with
  | some (RVal.int n) => n
  | _ => 0

/-- The call would be served from the cache: the bytes under the cache key are
present, unexpired and truthy (non-empty). -/
def hitAt (s : Store) (url : String) (now : Nat) : Prop :=
  match Store.getBytesAt s ("cache:" ++ url) now with
  | some bs => bs ≠ []
  | none => False

/-- The entry `INCR` leaves under a key. -/
def incrEntry (s : Store) (k : String) (now : Nat) : Entry :=
  match Store.getAt s k now with
  | some (RVal.int n) => ⟨RVal.int (n + 1), Store.expiryOf s k⟩
  | _ => ⟨RVal.int 1, none⟩

/-- The store after the unconditional `INCR` at the start of a call. -/
def incrStore (s : Store) (url : String) (now : Nat) : Store :=
  Store.set s ("count:" ++ url) (incrEntry s ("count:" ++ url) now)

/-!
## Basic store lemmas
-/

theorem cache_key_ne_count_key (url : String) :
    ("cache:" ++ url) ≠ ("count:" ++ url) := by
  intro h
  cases url with
  | mk d =>
    have hd : "cache:".data ++ d = "count:".data ++ d := congrArg String.data h
    have hlit : "cache:".data = "count:".data := List.append_cancel_right hd
    exact absurd hlit (by decide)

theorem count_key_ne_cache_key (url : String) :
    ("count:" ++ url) ≠ ("cache:" ++ url) :=
  fun h => cache_key_ne_count_key url h.symm

theorem Store.set_same (s : Store) (k : String) (e : Entry) :
    Store.set s k e k = some e := by
  unfold Store.set; rw [if_pos rfl]

theorem Store.set_ne (s : Store) (k : String) (e : Entry) (q : String)
    (h : q ≠ k) : Store.set s k e q = s q := by
  unfold Store.set; rw [if_neg h]

theorem Store.getAt_set_same (s : Store) (k : String) (e : Entry) (now : Nat) :
    Store.getAt (Store.set s k e) k now =
      match e.expiry with
      | none => some e.val
      | some t => if now < t then some e.val else none := by
  unfold Store.getAt
  rw [Store.set_same]

theorem Store.getAt_set_ne (s : Store) (k : String) (e : Entry) (q : String)
    (now : Nat) (h : q ≠ k) :
    Store.getAt (Store.set s k e) q now = Store.getAt s q now := by
  unfold Store.getAt
  rw [Store.set_ne s k e q h]

theorem Store.expiry_live {s : Store} {k : String} {now : Nat} {v : RVal}
    (h : Store.getAt s k now = some v) :
    Store.expiryOf s k = none ∨ ∃ t, Store.expiryOf s k = some t ∧ now < t := by
  unfold Store.getAt at h
  unfold Store.expiryOf
  cases hk : s k with
  | none => simp only [hk] at h; exact Option.noConfusion h
  | some e =>
    simp only [hk] at h ⊢
    cases he : e.expiry with
    | none => exact Or.inl rfl
    | some t =>
      simp only [he] at h ⊢
      by_cases ht : now < t
      · exact Or.inr ⟨t, rfl, ht⟩
      · rw [if_neg ht] at h; exact Option.noConfusion h

/-!
## The effect of the initial `INCR`
-/

theorem incrAt_of_countOk {s : Store} {url : String} {now : Nat}
    (h : countOkAt s url now) :
    incrAt s ("count:" ++ url) now = some (incrStore s url now) := by
  unfold countOkAt at h
  unfold incrAt incrStore incrEntry
  cases hg : Store.getAt s ("count:" ++ url) now with
  | none => rfl
  | some v =>
    cases v with
    | int n => rfl
    | bytes b => simp only [hg] at h

theorem incrAt_frame {s s1 : Store} {k : String} {now : Nat}
    (h : incrAt s k now = some s1) (q : String) (hq : q ≠ k) : s1 q = s q := by
  unfold incrAt at h
  cases hg : Store.getAt s k now with
  | none => rw [hg] at h; cases h; exact Store.set_ne s k _ q hq
  | some v =>
    cases v with
    | int n => rw [hg] at h; cases h; exact Store.set_ne s k _ q hq
    | bytes b => rw [hg] at h; cases h

/-- The counter visible at `now` grows by exactly one under `INCR`, whatever
was under the key (a live non-integer value makes `INCR` raise instead, and
`incrStore` is only reached when it does not). -/
theorem counterVal_incrStore (s : Store) (url : String) (now : Nat) :
    counterVal (incrStore s url now) url now = counterVal s url now + 1 := by
  unfold counterVal incrStore incrEntry
  cases hg : Store.getAt s ("count:" ++ url) now with
  | none =>
    rw [Store.getAt_set_same]
    norm_num
  | some v =>
    cases v with
    | int n =>
      rw [Store.getAt_set_same]
      rcases Store.expiry_live hg with hl | ⟨t, hl, ht⟩
      · rw [hl]
      · rw [hl]
        show (match if now < t then some (RVal.int (n + 1)) else none with
          | some (RVal.int n) => n
          | _ => 0) = n + 1
        rw [if_pos ht]
    | bytes b =>
      rw [Store.getAt_set_same]
      norm_num

/-- When the counter key is absent or holds a persistent integer, `INCR`
leaves a persistent integer one larger than the visible counter value. -/
theorem incrStore_count_entry (s : Store) (url : String) (now : Nat)
    (h : s ("count:" ++ url) = none ∨
      ∃ n : Int, s ("count:" ++ url) = some ⟨RVal.int n, none⟩) :
    incrStore s url now ("count:" ++ url) =
      some ⟨RVal.int (counterVal s url now + 1), none⟩ := by
  rcases h with h | ⟨n, h⟩ <;>
    simp [incrStore, incrEntry, counterVal, Store.expiryOf, Store.getAt, Store.set, h]

theorem getBytesAt_incrStore (s : Store) (url : String) (now t : Nat) :
    Store.getBytesAt (incrStore s url now) ("cache:" ++ url) t =
      Store.getBytesAt s ("cache:" ++ url) t := by
  unfold Store.getBytesAt incrStore
  rw [Store.getAt_set_ne _ _ _ _ _ (cache_key_ne_count_key url)]

theorem incrAt_of_not_countOk {s : Store} {url : String} {now : Nat}
    (h : ¬ countOkAt s url now) : incrAt s ("count:" ++ url) now = none := by
  unfold incrAt
  cases hg : Store.getAt s ("count:" ++ url) now with
  | none => exact absurd (show countOkAt s url now by unfold countOkAt; simp [hg]) h
  | some v =>
    cases v with
    | int n => exact absurd (show countOkAt s url now by unfold countOkAt; simp [hg]) h
    | bytes b => rfl

theorem hitAt_elim {s : Store} {url : String} {now : Nat} (h : hitAt s url now) :
    ∃ bs, Store.getBytesAt s ("cache:" ++ url) now = some bs ∧ bs ≠ [] := by
  unfold hitAt at h
  cases hbs : Store.getBytesAt s ("cache:" ++ url) now with
  | none => simp only [hbs] at h
  | some bs => simp only [hbs] at h; exact ⟨bs, rfl, h⟩

theorem incrEntry_val_int (s : Store) (k : String) (now : Nat) :
    ∃ m : Int, (incrEntry s k now).val = RVal.int m := by
  unfold incrEntry
  cases hg : Store.getAt s k now with
  | none => exact ⟨1, rfl⟩
  | some v =>
    cases v with
    | int n => exact ⟨n + 1, rfl⟩
    | bytes b => exact ⟨1, rfl⟩

theorem countOkAt_incrStore (s : Store) (url : String) (now t : Nat) :
    countOkAt (incrStore s url now) url t := by
  obtain ⟨m, hm⟩ := incrEntry_val_int s ("count:" ++ url) now
  unfold countOkAt incrStore
  rw [Store.getAt_set_same]
  cases he : (incrEntry s ("count:" ++ url) now).expiry with
  | none => simp only [hm]
  | some t' =>
    by_cases ht : t < t'
    · simp only [if_pos ht, hm]
    · simp only [if_neg ht]

theorem countOkAt_set_cache (s : Store) (url : String) (e : Entry) (t : Nat)
    (h : countOkAt s url t) :
    countOkAt (Store.set s ("cache:" ++ url) e) url t := by
  unfold countOkAt at h ⊢
  rw [Store.getAt_set_ne _ _ _ _ _ (count_key_ne_cache_key url)]
  exact h

/-!
## Characterizations of one wrapper call
-/

/-- A call that finds truthy cached bytes returns them decoded and performs no
fetch; the only store change is the counter increment. -/
theorem wrapper_hit_eq {s : Store} {url : String} {now : Nat} {bs : List Nat}
    (expiration : Nat) (func : String → Except ε String)
    (hok : countOkAt s url now)
    (hbs : Store.getBytesAt s ("cache:" ++ url) now = some bs) (hne : bs ≠ []) :
    wrapper expiration func url now s =
      ⟨match utf8Decode bs with
        | some v => Except.ok v
        | none => Except.error PyExc.unicodeDecodeExc,
       incrStore s url now, 0⟩ := by
  unfold wrapper
  rw [incrAt_of_countOk hok]
  simp only [getBytesAt_incrStore, hbs, if_pos hne]
  cases utf8Decode bs <;> rfl

/-- A call that finds no truthy cached bytes proceeds to the fetch-and-cache
path on the counter-incremented store. -/
theorem wrapper_miss_eq {s : Store} {url : String} {now : Nat}
    (expiration : Nat) (func : String → Except ε String)
    (hok : countOkAt s url now) (hmiss : ¬ hitAt s url now) :
    wrapper expiration func url now s =
      fetchAndCache expiration func url now (incrStore s url now) := by
  unfold wrapper
  rw [incrAt_of_countOk hok]
  unfold hitAt at hmiss
  cases hbs : Store.getBytesAt s ("cache:" ++ url) now with
  | none => simp only [getBytesAt_incrStore, hbs]
  | some bs =>
    simp only [hbs] at hmiss
    simp only [getBytesAt_incrStore, hbs, if_neg hmiss]

/-- Keys other than `count:<url>` and `cache:<url>` are never touched. -/
theorem wrapper_frame (expiration : Nat) (func : String → Except ε String)
    (url : String) (now : Nat) (s : Store) (k : String)
    (hk1 : k ≠ "count:" ++ url) (hk2 : k ≠ "cache:" ++ url) :
    (wrapper expiration func url now s).store k = s k := by
  by_cases hok : countOkAt s url now
  · by_cases hhit : hitAt s url now
    · obtain ⟨bs, hbs, hne⟩ := hitAt_elim hhit
      rw [wrapper_hit_eq expiration func hok hbs hne]
      exact Store.set_ne _ _ _ _ hk1
    · rw [wrapper_miss_eq expiration func hok hhit]
      unfold fetchAndCache
      cases hf : func url with
      | error e => exact Store.set_ne _ _ _ _ hk1
      | ok v =>
        show setexAt (incrStore s url now) ("cache:" ++ url) expiration v now k = s k
        unfold setexAt
        rw [Store.set_ne _ _ _ _ hk2]
        exact Store.set_ne _ _ _ _ hk1
  · unfold wrapper
    rw [incrAt_of_not_countOk hok]

/-- The store after a call is either just the incremented store (hit, or a
fetch that raised) or the incremented store with the successful fetch result
cached. -/
theorem wrapper_store_eq {s : Store} {url : String} {now : Nat}
    (expiration : Nat) (func : String → Except ε String)
    (hok : countOkAt s url now) :
    (wrapper expiration func url now s).store = incrStore s url now ∨
    ∃ v, func url = Except.ok v ∧
      (wrapper expiration func url now s).store =
        setexAt (incrStore s url now) ("cache:" ++ url) expiration v now := by
  by_cases hhit : hitAt s url now
  · obtain ⟨bs, hbs, hne⟩ := hitAt_elim hhit
    rw [wrapper_hit_eq expiration func hok hbs hne]
    exact Or.inl rfl
  · rw [wrapper_miss_eq expiration func hok hhit]
    unfold fetchAndCache
    cases hf : func url with
    | error e => exact Or.inl rfl
    | ok v => exact Or.inr ⟨v, rfl, rfl⟩

theorem counterVal_set_cache (s : Store) (url : String) (e : Entry) (t : Nat) :
    counterVal (Store.set s ("cache:" ++ url) e) url t = counterVal s url t := by
  unfold counterVal
  rw [Store.getAt_set_ne _ _ _ _ _ (count_key_ne_cache_key url)]

/-- When the counter key is absent or holds a persistent integer, the counter
entry after a call is a persistent integer one larger than the visible
counter value, whatever path the call took. -/
theorem wrapper_count_entry {s : Store} {url : String} {now : Nat}
    (expiration : Nat) (func : String → Except ε String)
    (h : s ("count:" ++ url) = none ∨
      ∃ n : Int, s ("count:" ++ url) = some ⟨RVal.int n, none⟩) :
    (wrapper expiration func url now s).store ("count:" ++ url) =
      some ⟨RVal.int (counterVal s url now + 1), none⟩ := by
  have hok : countOkAt s url now := by
    unfold countOkAt Store.getAt
    rcases h with h | ⟨n, h⟩ <;> simp [h]
  rcases wrapper_store_eq expiration func hok with hst | ⟨v, hf, hst⟩
  · rw [hst]; exact incrStore_count_entry s url now h
  · rw [hst]
    unfold setexAt
    rw [Store.set_ne _ _ _ _ (count_key_ne_cache_key url)]
    exact incrStore_count_entry s url now h

theorem fetchAndCache_fetchCalls (expiration : Nat) (func : String → Except ε String)
    (url : String) (now : Nat) (s : Store) :
    (fetchAndCache expiration func url now s).fetchCalls = 1 := by
  unfold fetchAndCache
  cases func url <;> rfl

theorem fetchAndCache_ok {expiration : Nat} {func : String → Except ε String}
    {url : String} {now : Nat} {s : Store} {v : String}
    (hf : func url = Except.ok v) :
    fetchAndCache expiration func url now s =
      ⟨Except.ok v, setexAt s ("cache:" ++ url) expiration v now, 1⟩ := by
  unfold fetchAndCache
  rw [hf]

theorem fetchAndCache_error {expiration : Nat} {func : String → Except ε String}
    {url : String} {now : Nat} {s : Store} {e : ε}
    (hf : func url = Except.error e) :
    fetchAndCache expiration func url now s =
      ⟨Except.error (PyExc.fetchExc e), s, 1⟩ := by
  unfold fetchAndCache
  rw [hf]

/-- A key visible at a later time was already visible, with the same value, at
any earlier time. -/
theorem Store.getAt_mono {s : Store} {k : String} {now now' : Nat} {v : RVal}
    (hle : now ≤ now') (h : Store.getAt s k now' = some v) :
    Store.getAt s k now = some v := by
  unfold Store.getAt at h ⊢
  cases hk : s k with
  | none => simp only [hk] at h; exact Option.noConfusion h
  | some e =>
    simp only [hk] at h ⊢
    cases he : e.expiry with
    | none => simp only [he] at h ⊢; exact h
    | some t =>
      simp only [he] at h ⊢
      by_cases ht : now' < t
      · rw [if_pos ht] at h; rw [if_pos (by omega)]; exact h
      · rw [if_neg ht] at h; exact Option.noConfusion h

theorem Store.getBytesAt_mono {s : Store} {k : String} {now now' : Nat}
    {bs : List Nat} (hle : now ≤ now')
    (h : Store.getBytesAt s k now' = some bs) :
    Store.getBytesAt s k now = some bs := by
  unfold Store.getBytesAt at h ⊢
  cases hg : Store.getAt s k now' with
  | none => simp only [hg] at h; exact Option.noConfusion h
  | some v =>
    simp only [hg] at h
    simp only [Store.getAt_mono hle hg]
    exact h

/-- A call that misses stays a miss at any later time on an unchanged store:
an absent, expired or empty cache entry cannot become truthy by waiting. -/
theorem hitAt_mono {s : Store} {url : String} {now now' : Nat}
    (hmiss : ¬ hitAt s url now) (hle : now ≤ now') : ¬ hitAt s url now' := by
  intro h
  obtain ⟨bs, hbs, hne⟩ := hitAt_elim h
  apply hmiss
  unfold hitAt
  simp only [Store.getBytesAt_mono hle hbs]
  exact hne

theorem not_hitAt_of_absent {s : Store} {url : String} {now : Nat}
    (h : Store.getAt s ("cache:" ++ url) now = none) : ¬ hitAt s url now := by
  unfold hitAt Store.getBytesAt
  simp only [h]
  exact fun f => f

theorem not_hitAt_of_empty {s : Store} {url : String} {now : Nat}
    (h : Store.getBytesAt s ("cache:" ++ url) now = some []) :
    ¬ hitAt s url now := by
  unfold hitAt
  simp only [h]
  exact fun f => f rfl

theorem getBytesAt_setex_live (s : Store) (k : String) (exp : Nat) (v : String)
    (t0 t1 : Nat) (h : t1 < t0 + exp) :
    Store.getBytesAt (setexAt s k exp v t0) k t1 = some (utf8Encode v) := by
  unfold setexAt Store.getBytesAt
  simp only [Store.getAt_set_same, if_pos h]

theorem getAt_setex_expired (s : Store) (k : String) (exp : Nat) (v : String)
    (t0 t1 : Nat) (h : t0 + exp ≤ t1) :
    Store.getAt (setexAt s k exp v t0) k t1 = none := by
  unfold setexAt
  simp only [Store.getAt_set_same, if_neg (show ¬ t1 < t0 + exp by omega)]

/-- The counter visible value after one call, whatever the outcome. -/
theorem wrapper_counterVal {s : Store} {url : String} {now : Nat}
    (expiration : Nat) (func : String → Except ε String)
    (hok : countOkAt s url now) :
    counterVal (wrapper expiration func url now s).store url now =
      counterVal s url now + 1 := by
  rcases wrapper_store_eq expiration func hok with hst | ⟨v, hf, hst⟩
  · rw [hst, counterVal_incrStore]
  · rw [hst]
    unfold setexAt
    rw [counterVal_set_cache, counterVal_incrStore]

/-- A sequence of calls of the wrapped function: each element gives the fetch
function used for that call (its result may differ from call to call) and the
time of the call; the store is threaded through. -/
def runCalls (expiration : Nat) (calls : List ((String → Except ε String) × Nat))
    (url : String) (s : Store) : Store :=
  match calls with
  | [] => s
  | (func, t) :: rest =>
    runCalls expiration rest url (wrapper expiration func url t s).store

theorem runCalls_count (expiration : Nat)
    (calls : List ((String → Except ε String) × Nat)) (url : String)
    (s : Store) (n : Int)
    (h : s ("count:" ++ url) = some ⟨RVal.int n, none⟩) :
    runCalls expiration calls url s ("count:" ++ url) =
      some ⟨RVal.int (n + calls.length), none⟩ := by
  induction calls generalizing s n with
  | nil =>
    unfold runCalls
    rw [h]
    norm_num
  | cons c rest ih =>
    obtain ⟨func, t⟩ := c
    have hcv : counterVal s url t = n := by
      unfold counterVal Store.getAt
      simp [h]
    have hstep := @wrapper_count_entry ε s url t expiration func (Or.inr ⟨n, h⟩)
    rw [hcv] at hstep
    unfold runCalls
    rw [ih _ _ hstep]
    have harith : n + 1 + (rest.length : Int) = n + ((rest.length : Int) + 1) := by ring
    rw [harith]
    norm_num

theorem runCalls_counterVal (expiration : Nat)
    (calls : List ((String → Except ε String) × Nat)) (url : String)
    (s : Store) (t : Nat) (h : s ("count:" ++ url) = none) :
    counterVal (runCalls expiration calls url s) url t = calls.length := by
  cases calls with
  | nil =>
    unfold runCalls counterVal Store.getAt
    simp [h]
  | cons c rest =>
    obtain ⟨func, t0⟩ := c
    have hcv : counterVal s url t0 = 0 := by
      unfold counterVal Store.getAt
      simp [h]
    have hstep := @wrapper_count_entry ε s url t0 expiration func (Or.inl h)
    rw [hcv] at hstep
    unfold runCalls
    have hc := runCalls_count expiration rest url _ _ hstep
    unfold counterVal Store.getAt
    rw [hc]
    show (0 : Int) + 1 + rest.length = ((rest.length + 1 : Nat) : Int)
    push_cast
    ring

/-- The value the wrapper returns on a hit over cached bytes `bs`:
`bs.decode('utf-8')`, or a `UnicodeDecodeError` when the bytes are invalid. -/
def decodeRet (bs : List Nat) : Except (PyExc ε) String :=
  match utf8Decode bs with
  | some v => Except.ok v
  | none => Except.error PyExc.unicodeDecodeExc

theorem utf8Encode_empty : utf8Encode "" = ([] : List Nat) := rfl

/-- After a miss at `t0` whose fetch returned the non-empty string `v`, a call
within the expiration window returns `v` without invoking its fetch. -/
theorem second_call_hit {s : Store} {url : String} {t0 t1 : Nat}
    (expiration : Nat) (f1 f2 : String → Except ε String) {v : String}
    (hok : countOkAt s url t0) (hmiss : ¬ hitAt s url t0)
    (hf1 : f1 url = Except.ok v) (hv : v ≠ "") (ht : t1 < t0 + expiration) :
    (wrapper expiration f2 url t1 (wrapper expiration f1 url t0 s).store).ret =
      Except.ok v ∧
    (wrapper expiration f2 url t1 (wrapper expiration f1 url t0 s).store).fetchCalls = 0 := by
  have h1 : (wrapper expiration f1 url t0 s).store =
      setexAt (incrStore s url t0) ("cache:" ++ url) expiration v t0 := by
    rw [wrapper_miss_eq expiration f1 hok hmiss, fetchAndCache_ok hf1]
  have hbs : Store.getBytesAt (wrapper expiration f1 url t0 s).store
      ("cache:" ++ url) t1 = some (utf8Encode v) := by
    rw [h1]
    exact getBytesAt_setex_live _ _ _ _ _ _ ht
  have hne : utf8Encode v ≠ [] := by
    intro hnil
    exact hv ((utf8Encode_eq_nil_iff v).mp hnil)
  have hok2 : countOkAt (wrapper expiration f1 url t0 s).store url t1 := by
    rw [h1]
    exact countOkAt_set_cache _ _ _ _ (countOkAt_incrStore s url t0 t1)
  rw [wrapper_hit_eq expiration f2 hok2 hbs hne]
  constructor
  · show (match utf8Decode (utf8Encode v) with
      | some w => (Except.ok w : Except (PyExc ε) String)
      | none => Except.error PyExc.unicodeDecodeExc) = Except.ok v
    rw [utf8Decode_utf8Encode]
  · rfl

/-!
## Concrete fixtures
-/

/-- The empty key space. -/
def emptyStore : Store := fun _ => none

/-- A store holding only an empty cached body for url `u`, unexpired until
time 100. -/
def emptyBodyStore : Store :=
  fun k => if k = "cache:" ++ "u" then some ⟨RVal.bytes [], some 100⟩ else none

/-- A store holding the cached body `A` for url `u`, unexpired until time
100. -/
def cachedAStore : Store :=
  fun k =>
    if k = "cache:" ++ "u" then some ⟨RVal.bytes (utf8Encode "A"), some 100⟩
    else none

/-!
## The claims
-/

/-- C1: one call of the wrapped function increments the counter stored at
`count:<url>` by exactly 1 (the increment precedes the cache lookup, so it
happens on hits, on misses and on calls whose fetch raises alike), and after
`n` calls starting from a store with no counter the counter equals `n`. -/
theorem C1_counter_increment :
    (∀ (ε : Type) (expiration : Nat) (func : String → Except ε String)
      (url : String) (now : Nat) (s : Store), countOkAt s url now →
        counterVal (wrapper expiration func url now s).store url now =
          counterVal s url now + 1) ∧
    (∀ (ε : Type) (expiration : Nat)
      (calls : List ((String → Except ε String) × Nat)) (url : String)
      (s : Store) (t : Nat), s ("count:" ++ url) = none →
        counterVal (runCalls expiration calls url s) url t = calls.length) := by
  constructor
  · intro ε expiration func url now s hok
    exact wrapper_counterVal expiration func hok
  · intro ε expiration calls url s t h
    exact runCalls_counterVal expiration calls url s t h

theorem C1_counter_increment_witness :
    counterVal (wrapper 10 (fun _ => (Except.ok "A" : Except Unit String)) "u" 0
        emptyStore).store "u" 0 = 1 ∧
    counterVal (runCalls 10
        [(fun _ => (Except.ok "A" : Except Unit String), 0),
         (fun _ => (Except.ok "B" : Except Unit String), 1)] "u"
        emptyStore) "u" 5 = 2 := by
  constructor
  · have h := C1_counter_increment.1 Unit 10 (fun _ => Except.ok "A") "u" 0
      emptyStore (by trivial)
    rw [h]
    decide
  · have h := C1_counter_increment.2 Unit 10
      [(fun _ => Except.ok "A", 0), (fun _ => Except.ok "B", 1)] "u"
      emptyStore 5 rfl
    rw [h]
    decide

/-- C2 as stated is false: with the empty string cached for `u` (the entry is
present and not expired at time 0), the wrapper nevertheless invokes the fetch
function, because `if cached_result:` treats empty bytes as falsy. -/
theorem C2_counterexample :
    Store.getAt emptyBodyStore ("cache:" ++ "u") 0 = some (RVal.bytes []) ∧
    (wrapper 10 (fun _ => (Except.ok "A" : Except Unit String)) "u" 0
      emptyBodyStore).fetchCalls = 1 := by
  constructor
  · rfl
  · rfl

/-- C2 (amended): a present, unexpired and NON-EMPTY cache entry is returned
decoded as UTF-8 without invoking the fetch function; and a second call within
the expiration window after a miss whose fetch returned a non-empty string
returns that string without invoking the fetch function. -/
theorem C2_cache_hit :
    (∀ (ε : Type) (expiration : Nat) (func : String → Except ε String)
      (url : String) (now : Nat) (s : Store) (bs : List Nat),
      countOkAt s url now →
      Store.getBytesAt s ("cache:" ++ url) now = some bs → bs ≠ [] →
      (wrapper expiration func url now s).fetchCalls = 0 ∧
      (wrapper expiration func url now s).ret = decodeRet bs ∧
      (∀ v, bs = utf8Encode v →
        (wrapper expiration func url now s).ret = Except.ok v)) ∧
    (∀ (ε : Type) (expiration : Nat) (f1 f2 : String → Except ε String)
      (url : String) (t0 t1 : Nat) (s : Store) (v : String),
      countOkAt s url t0 → ¬ hitAt s url t0 → f1 url = Except.ok v →
      v ≠ "" → t1 < t0 + expiration →
      (wrapper expiration f2 url t1
        (wrapper expiration f1 url t0 s).store).ret = Except.ok v ∧
      (wrapper expiration f2 url t1
        (wrapper expiration f1 url t0 s).store).fetchCalls = 0) := by
  constructor
  · intro ε expiration func url now s bs hok hbs hne
    rw [wrapper_hit_eq expiration func hok hbs hne]
    refine ⟨rfl, ?_, ?_⟩
    · unfold decodeRet
      cases utf8Decode bs <;> rfl
    · intro v hv
      rw [hv]
      show (match utf8Decode (utf8Encode v) with
        | some w => (Except.ok w : Except (PyExc ε) String)
        | none => Except.error PyExc.unicodeDecodeExc) = Except.ok v
      rw [utf8Decode_utf8Encode]
  · intro ε expiration f1 f2 url t0 t1 s v hok hmiss hf1 hv ht
    exact second_call_hit expiration f1 f2 hok hmiss hf1 hv ht

theorem C2_cache_hit_witness :
    (wrapper 10 (fun _ => (Except.ok "B" : Except Unit String)) "u" 0
      cachedAStore).fetchCalls = 0 ∧
    (wrapper 10 (fun _ => (Except.ok "B" : Except Unit String)) "u" 0
      cachedAStore).ret = Except.ok "A" ∧
    (wrapper 10 (fun _ => (Except.ok "B" : Except Unit String)) "u" 5
      (wrapper 10 (fun _ => (Except.ok "A" : Except Unit String)) "u" 0
        emptyStore).store).ret = Except.ok "A" ∧
    (wrapper 10 (fun _ => (Except.ok "B" : Except Unit String)) "u" 5
      (wrapper 10 (fun _ => (Except.ok "A" : Except Unit String)) "u" 0
        emptyStore).store).fetchCalls = 0 := by
  have h1 := C2_cache_hit.1 Unit 10 (fun _ => Except.ok "B") "u" 0 cachedAStore
    (utf8Encode "A") (by trivial) rfl (by decide)
  have h2 := C2_cache_hit.2 Unit 10 (fun _ => Except.ok "A")
    (fun _ => Except.ok "B") "u" 0 5 emptyStore "A" (by trivial)
    (fun h => h) rfl (by decide) (by decide)
  exact ⟨h1.1, h1.2.2 "A" rfl, h2.1, h2.2⟩

/-- C3: a call that finds no cache entry under `cache:<url>` invokes the
wrapped function exactly once, stores its successful result under
`cache:<url>` expiring `expiration` seconds from now, and returns exactly that
result; the default of the `expiration` configuration is 10. -/
theorem C3_cache_miss :
    defaultExpiration = 10 ∧
    ∀ (ε : Type) (expiration : Nat) (func : String → Except ε String)
      (url : String) (now : Nat) (s : Store) (v : String),
      countOkAt s url now →
      Store.getAt s ("cache:" ++ url) now = none →
      func url = Except.ok v →
      (cache_and_count expiration func url now s).ret = Except.ok v ∧
      (cache_and_count expiration func url now s).fetchCalls = 1 ∧
      (cache_and_count expiration func url now s).store ("cache:" ++ url) =
        some ⟨RVal.bytes (utf8Encode v), some (now + expiration)⟩ := by
  constructor
  · rfl
  · intro ε expiration func url now s v hok habs hf
    have hmiss := not_hitAt_of_absent habs
    have hm := wrapper_miss_eq expiration func hok hmiss
    refine ⟨?_, ?_, ?_⟩
    · show (wrapper expiration func url now s).ret = _
      rw [hm, fetchAndCache_ok hf]
    · show (wrapper expiration func url now s).fetchCalls = 1
      rw [hm]
      exact fetchAndCache_fetchCalls expiration func url now _
    · show (wrapper expiration func url now s).store ("cache:" ++ url) = _
      rw [hm, fetchAndCache_ok hf]
      show setexAt (incrStore s url now) ("cache:" ++ url) expiration v now
        ("cache:" ++ url) = _
      unfold setexAt
      exact Store.set_same _ _ _

theorem C3_cache_miss_witness :
    (cache_and_count 10 (fun _ => (Except.ok "A" : Except Unit String)) "u" 0
      emptyStore).ret = Except.ok "A" ∧
    (cache_and_count 10 (fun _ => (Except.ok "A" : Except Unit String)) "u" 0
      emptyStore).fetchCalls = 1 ∧
    (cache_and_count 10 (fun _ => (Except.ok "A" : Except Unit String)) "u" 0
      emptyStore).store ("cache:" ++ "u") =
      some ⟨RVal.bytes (utf8Encode "A"), some (0 + 10)⟩ :=
  C3_cache_miss.2 Unit 10 (fun _ => Except.ok "A") "u" 0 emptyStore "A"
    (by trivial) rfl rfl

/-- C4: when the fetch raises on a miss, the exception propagates unchanged,
nothing is written under `cache:<url>`, the counter increment is kept (the
count reflects attempts), and a later call on the resulting store attempts the
fetch again. -/
theorem C4_fetch_error :
    ∀ (ε : Type) (expiration : Nat) (func : String → Except ε String)
      (url : String) (now now' : Nat) (s : Store) (e : ε),
      countOkAt s url now → ¬ hitAt s url now → func url = Except.error e →
      (wrapper expiration func url now s).ret =
        Except.error (PyExc.fetchExc e) ∧
      (wrapper expiration func url now s).fetchCalls = 1 ∧
      (wrapper expiration func url now s).store ("cache:" ++ url) =
        s ("cache:" ++ url) ∧
      counterVal (wrapper expiration func url now s).store url now =
        counterVal s url now + 1 ∧
      (now ≤ now' →
        (wrapper expiration func url now'
          (wrapper expiration func url now s).store).fetchCalls = 1) := by
  intro ε expiration func url now now' s e hok hmiss hf
  have hm := wrapper_miss_eq expiration func hok hmiss
  have hstore : (wrapper expiration func url now s).store =
      incrStore s url now := by
    rw [hm, fetchAndCache_error hf]
  refine ⟨?_, ?_, ?_, ?_, ?_⟩
  · rw [hm, fetchAndCache_error hf]
  · rw [hm]
    exact fetchAndCache_fetchCalls expiration func url now _
  · rw [hstore]
    exact Store.set_ne _ _ _ _ (cache_key_ne_count_key url)
  · exact wrapper_counterVal expiration func hok
  · intro hle
    have hok2 : countOkAt (wrapper expiration func url now s).store url now' := by
      rw [hstore]
      exact countOkAt_incrStore s url now now'
    have hmiss2 : ¬ hitAt (wrapper expiration func url now s).store url now' := by
      rw [hstore]
      intro hh
      obtain ⟨bs, hbs, hne⟩ := hitAt_elim hh
      rw [getBytesAt_incrStore] at hbs
      refine hitAt_mono hmiss hle ?_
      unfold hitAt
      simp only [hbs]
      exact hne
    rw [wrapper_miss_eq expiration func hok2 hmiss2]
    exact fetchAndCache_fetchCalls expiration func url now' _

theorem C4_fetch_error_witness :
    (wrapper 10 (fun _ => (Except.error () : Except Unit String)) "u" 0
      emptyStore).ret = Except.error (PyExc.fetchExc ()) ∧
    (wrapper 10 (fun _ => (Except.error () : Except Unit String)) "u" 0
      emptyStore).fetchCalls = 1 ∧
    (wrapper 10 (fun _ => (Except.error () : Except Unit String)) "u" 0
      emptyStore).store ("cache:" ++ "u") = emptyStore ("cache:" ++ "u") ∧
    counterVal (wrapper 10 (fun _ => (Except.error () : Except Unit String))
      "u" 0 emptyStore).store "u" 0 = counterVal emptyStore "u" 0 + 1 ∧
    (wrapper 10 (fun _ => (Except.error () : Except Unit String)) "u" 3
      (wrapper 10 (fun _ => (Except.error () : Except Unit String)) "u" 0
        emptyStore).store).fetchCalls = 1 := by
  have h := C4_fetch_error Unit 10 (fun _ => Except.error ()) "u" 0 3
    emptyStore () (by trivial) (fun hh => hh) rfl
  exact ⟨h.1, h.2.1, h.2.2.1, h.2.2.2.1, h.2.2.2.2 (by decide)⟩

/-- C5: once the expiration window has passed since the entry was written by a
miss, a call is a miss again: the fetch is invoked, and a successful fresh
result is stored with a fresh expiration and returned. -/
theorem C5_expiration :
    ∀ (ε : Type) (expiration : Nat) (f1 f2 : String → Except ε String)
      (url : String) (t0 t1 : Nat) (s : Store) (v : String),
      countOkAt s url t0 → ¬ hitAt s url t0 → f1 url = Except.ok v →
      t0 + expiration ≤ t1 →
      (wrapper expiration f2 url t1
        (wrapper expiration f1 url t0 s).store).fetchCalls = 1 ∧
      ∀ w, f2 url = Except.ok w →
        (wrapper expiration f2 url t1
          (wrapper expiration f1 url t0 s).store).ret = Except.ok w ∧
        (wrapper expiration f2 url t1
          (wrapper expiration f1 url t0 s).store).store ("cache:" ++ url) =
          some ⟨RVal.bytes (utf8Encode w), some (t1 + expiration)⟩ := by
  intro ε expiration f1 f2 url t0 t1 s v hok hmiss hf1 ht
  have h1 : (wrapper expiration f1 url t0 s).store =
      setexAt (incrStore s url t0) ("cache:" ++ url) expiration v t0 := by
    rw [wrapper_miss_eq expiration f1 hok hmiss, fetchAndCache_ok hf1]
  have habs : Store.getAt (wrapper expiration f1 url t0 s).store
      ("cache:" ++ url) t1 = none := by
    rw [h1]
    exact getAt_setex_expired _ _ _ _ _ _ ht
  have hok2 : countOkAt (wrapper expiration f1 url t0 s).store url t1 := by
    rw [h1]
    exact countOkAt_set_cache _ _ _ _ (countOkAt_incrStore s url t0 t1)
  have hmiss2 := not_hitAt_of_absent habs
  have hm2 := wrapper_miss_eq expiration f2 hok2 hmiss2
  refine ⟨?_, ?_⟩
  · rw [hm2]
    exact fetchAndCache_fetchCalls expiration f2 url t1 _
  · intro w hf2
    rw [hm2, fetchAndCache_ok hf2]
    refine ⟨rfl, ?_⟩
    show setexAt _ ("cache:" ++ url) expiration w t1 ("cache:" ++ url) = _
    unfold setexAt
    exact Store.set_same _ _ _

theorem C5_expiration_witness :
    (wrapper 10 (fun _ => (Except.ok "B" : Except Unit String)) "u" 12
      (wrapper 10 (fun _ => (Except.ok "A" : Except Unit String)) "u" 0
        emptyStore).store).fetchCalls = 1 ∧
    (wrapper 10 (fun _ => (Except.ok "B" : Except Unit String)) "u" 12
      (wrapper 10 (fun _ => (Except.ok "A" : Except Unit String)) "u" 0
        emptyStore).store).ret = Except.ok "B" ∧
    (wrapper 10 (fun _ => (Except.ok "B" : Except Unit String)) "u" 12
      (wrapper 10 (fun _ => (Except.ok "A" : Except Unit String)) "u" 0
        emptyStore).store).store ("cache:" ++ "u") =
      some ⟨RVal.bytes (utf8Encode "B"), some (12 + 10)⟩ := by
  have h := C5_expiration Unit 10 (fun _ => Except.ok "A")
    (fun _ => Except.ok "B") "u" 0 12 emptyStore "A" (by trivial)
    (fun hh => hh) rfl (by decide)
  have h2 := h.2 "B" rfl
  exact ⟨h.1, h2.1, h2.2⟩

/-- C6 as stated is false: `get_page` performs no status check, so a non-2xx
response is not a failure of the fetch.  Here the HTTP collaborator returns
status 404 with body `nf`, yet the wrapped call returns `Except.ok "nf"` and
writes a cache entry for the url. -/
theorem C6_counterexample :
    (get_page (fun _ => (Except.ok ⟨404, "nf"⟩ : Except Unit Response)) "u" 0
      emptyStore).ret = Except.ok "nf" ∧
    (get_page (fun _ => (Except.ok ⟨404, "nf"⟩ : Except Unit Response)) "u" 0
      emptyStore).store ("cache:" ++ "u") =
      some ⟨RVal.bytes (utf8Encode "nf"), some 10⟩ := by
  constructor
  · rfl
  · rfl

/-- C6 (amended): only an exception raised by the HTTP request itself (network
error, timeout) is a failure of the fetch: it propagates and no cache entry is
written.  A response with any status code, 2xx or not, is a success: its body
text is returned and cached. -/
theorem C6_fetch_failures :
    ∀ (ε : Type) (http : String → Except ε Response) (url : String)
      (now : Nat) (s : Store),
      countOkAt s url now →
      (∀ e, http url = Except.error e → ¬ hitAt s url now →
        (get_page http url now s).ret = Except.error (PyExc.fetchExc e) ∧
        (get_page http url now s).store ("cache:" ++ url) =
          s ("cache:" ++ url)) ∧
      (∀ resp, http url = Except.ok resp →
        Store.getAt s ("cache:" ++ url) now = none →
        (get_page http url now s).ret = Except.ok resp.text ∧
        (get_page http url now s).store ("cache:" ++ url) =
          some ⟨RVal.bytes (utf8Encode resp.text),
            some (now + defaultExpiration)⟩) := by
  intro ε http url now s hok
  constructor
  · intro e he hmiss
    have hb : get_page_body http url = Except.error e := by
      unfold get_page_body
      rw [he]
    have hm := wrapper_miss_eq defaultExpiration (get_page_body http) hok hmiss
    constructor
    · show (wrapper defaultExpiration (get_page_body http) url now s).ret = _
      rw [hm, fetchAndCache_error hb]
    · show (wrapper defaultExpiration (get_page_body http) url now s).store
        ("cache:" ++ url) = _
      rw [hm, fetchAndCache_error hb]
      show incrStore s url now ("cache:" ++ url) = _
      exact Store.set_ne _ _ _ _ (cache_key_ne_count_key url)
  · intro resp hr habs
    have hb : get_page_body http url = Except.ok resp.text := by
      unfold get_page_body
      rw [hr]
    have hmiss := not_hitAt_of_absent habs
    have hm := wrapper_miss_eq defaultExpiration (get_page_body http) hok hmiss
    constructor
    · show (wrapper defaultExpiration (get_page_body http) url now s).ret = _
      rw [hm, fetchAndCache_ok hb]
    · show (wrapper defaultExpiration (get_page_body http) url now s).store
        ("cache:" ++ url) = _
      rw [hm, fetchAndCache_ok hb]
      show setexAt _ ("cache:" ++ url) defaultExpiration resp.text now
        ("cache:" ++ url) = _
      unfold setexAt
      exact Store.set_same _ _ _

theorem C6_fetch_failures_witness :
    (get_page (fun _ => (Except.error () : Except Unit Response)) "u" 0
      emptyStore).ret = Except.error (PyExc.fetchExc ()) ∧
    (get_page (fun _ => (Except.error () : Except Unit Response)) "u" 0
      emptyStore).store ("cache:" ++ "u") = emptyStore ("cache:" ++ "u") ∧
    (get_page (fun _ => (Except.ok ⟨500, "oops"⟩ : Except Unit Response)) "u" 0
      emptyStore).ret = Except.ok (Response.mk 500 "oops").text ∧
    (get_page (fun _ => (Except.ok ⟨500, "oops"⟩ : Except Unit Response)) "u" 0
      emptyStore).store ("cache:" ++ "u") =
      some ⟨RVal.bytes (utf8Encode (Response.mk 500 "oops").text),
        some (0 + defaultExpiration)⟩ := by
  have h1 := (C6_fetch_failures Unit (fun _ => Except.error ()) "u" 0
    emptyStore (by trivial)).1 () rfl (fun hh => hh)
  have h2 := (C6_fetch_failures Unit (fun _ => Except.ok ⟨500, "oops"⟩) "u" 0
    emptyStore (by trivial)).2 ⟨500, "oops"⟩ rfl rfl
  exact ⟨h1.1, h1.2, h2.1, h2.2⟩

/-- C7: one call mutates the store only under `count:<url>` (one increment)
and `cache:<url>` (at most one `setex`, written only when the call did not
hit), leaves every other key unchanged, and invokes the fetch at most once:
never on a hit, exactly once otherwise. -/
theorem C7_store_frame :
    ∀ (ε : Type) (expiration : Nat) (func : String → Except ε String)
      (url : String) (now : Nat) (s : Store),
      (∀ k, k ≠ "count:" ++ url → k ≠ "cache:" ++ url →
        (wrapper expiration func url now s).store k = s k) ∧
      (wrapper expiration func url now s).fetchCalls ≤ 1 ∧
      (countOkAt s url now →
        counterVal (wrapper expiration func url now s).store url now =
          counterVal s url now + 1) ∧
      ((wrapper expiration func url now s).store ("cache:" ++ url) =
          s ("cache:" ++ url) ∨
        ∃ v, func url = Except.ok v ∧
          (wrapper expiration func url now s).store ("cache:" ++ url) =
            some ⟨RVal.bytes (utf8Encode v), some (now + expiration)⟩ ∧
          (wrapper expiration func url now s).fetchCalls = 1) ∧
      (countOkAt s url now →
        (hitAt s url now → (wrapper expiration func url now s).fetchCalls = 0) ∧
        (¬ hitAt s url now →
          (wrapper expiration func url now s).fetchCalls = 1)) := by
  intro ε expiration func url now s
  refine ⟨wrapper_frame expiration func url now s, ?_, ?_, ?_, ?_⟩
  · by_cases hok : countOkAt s url now
    · by_cases hhit : hitAt s url now
      · obtain ⟨bs, hbs, hne⟩ := hitAt_elim hhit
        rw [wrapper_hit_eq expiration func hok hbs hne]
        exact Nat.zero_le 1
      · rw [wrapper_miss_eq expiration func hok hhit,
          fetchAndCache_fetchCalls expiration func url now _]
    · unfold wrapper
      rw [incrAt_of_not_countOk hok]
      exact Nat.zero_le 1
  · intro hok
    exact wrapper_counterVal expiration func hok
  · by_cases hok : countOkAt s url now
    · by_cases hhit : hitAt s url now
      · obtain ⟨bs, hbs, hne⟩ := hitAt_elim hhit
        rw [wrapper_hit_eq expiration func hok hbs hne]
        left
        show incrStore s url now ("cache:" ++ url) = _
        exact Store.set_ne _ _ _ _ (cache_key_ne_count_key url)
      · cases hf : func url with
        | error e =>
          left
          rw [wrapper_miss_eq expiration func hok hhit, fetchAndCache_error hf]
          show incrStore s url now ("cache:" ++ url) = _
          exact Store.set_ne _ _ _ _ (cache_key_ne_count_key url)
        | ok v =>
          right
          refine ⟨v, rfl, ?_, ?_⟩
          · rw [wrapper_miss_eq expiration func hok hhit, fetchAndCache_ok hf]
            show setexAt _ ("cache:" ++ url) expiration v now
              ("cache:" ++ url) = _
            unfold setexAt
            exact Store.set_same _ _ _
          · rw [wrapper_miss_eq expiration func hok hhit, fetchAndCache_ok hf]
    · left
      unfold wrapper
      rw [incrAt_of_not_countOk hok]
  · intro hok
    constructor
    · intro hhit
      obtain ⟨bs, hbs, hne⟩ := hitAt_elim hhit
      rw [wrapper_hit_eq expiration func hok hbs hne]
    · intro hmiss
      rw [wrapper_miss_eq expiration func hok hmiss]
      exact fetchAndCache_fetchCalls expiration func url now _

theorem C7_store_frame_witness :
    (wrapper 10 (fun _ => (Except.ok "A" : Except Unit String)) "u" 0
      emptyStore).store "other" = emptyStore "other" ∧
    (wrapper 10 (fun _ => (Except.ok "A" : Except Unit String)) "u" 0
      emptyStore).fetchCalls ≤ 1 ∧
    counterVal (wrapper 10 (fun _ => (Except.ok "A" : Except Unit String))
      "u" 0 emptyStore).store "u" 0 = counterVal emptyStore "u" 0 + 1 ∧
    (wrapper 10 (fun _ => (Except.ok "A" : Except Unit String)) "u" 0
      emptyStore).fetchCalls = 1 := by
  have h := C7_store_frame Unit 10 (fun _ => Except.ok "A") "u" 0 emptyStore
  exact ⟨h.1 "other" (by decide) (by decide), h.2.1,
    h.2.2.1 (by trivial), (h.2.2.2.2 (by trivial)).2 (fun hh => hh)⟩

/-- C8: the wrapper never attaches an expiration to `count:<url>` and writes
it only through the single increment per call: starting from an absent counter
or a persistent integer counter, after a call the key holds a persistent
(never-expiring) integer equal to the old visible value plus one — so the
counter persists and its value never decreases. -/
theorem C8_counter_persistent :
    ∀ (ε : Type) (expiration : Nat) (func : String → Except ε String)
      (url : String) (now : Nat) (s : Store),
      (s ("count:" ++ url) = none ∨
        ∃ n : Int, s ("count:" ++ url) = some ⟨RVal.int n, none⟩) →
      ∃ m : Int,
        (wrapper expiration func url now s).store ("count:" ++ url) =
          some ⟨RVal.int m, none⟩ ∧
        m = counterVal s url now + 1 ∧ counterVal s url now ≤ m := by
  intro ε expiration func url now s h
  exact ⟨counterVal s url now + 1, wrapper_count_entry expiration func h, rfl,
    by omega⟩

theorem C8_counter_persistent_witness :
    (wrapper 10 (fun _ => (Except.ok "A" : Except Unit String)) "u" 0
      emptyStore).store ("count:" ++ "u") = some ⟨RVal.int 1, none⟩ := by
  obtain ⟨m, hm, hm2, _⟩ := C8_counter_persistent Unit 10
    (fun _ => Except.ok "A") "u" 0 emptyStore (Or.inl rfl)
  rw [hm, hm2]
  decide

/-- C9: an entry whose stored value is the empty string (its bytes are empty,
hence falsy) is treated exactly like an absent entry even while unexpired: the
fetch is invoked and the entry is rewritten. -/
theorem C9_empty_string_is_miss :
    ∀ (ε : Type) (expiration : Nat) (func : String → Except ε String)
      (url : String) (now t : Nat) (s : Store),
      countOkAt s url now →
      s ("cache:" ++ url) = some ⟨RVal.bytes (utf8Encode ""), some t⟩ →
      now < t →
      (wrapper expiration func url now s).fetchCalls = 1 ∧
      ∀ v, func url = Except.ok v →
        (wrapper expiration func url now s).ret = Except.ok v ∧
        (wrapper expiration func url now s).store ("cache:" ++ url) =
          some ⟨RVal.bytes (utf8Encode v), some (now + expiration)⟩ := by
  intro ε expiration func url now t s hok hentry hlt
  have hbs : Store.getBytesAt s ("cache:" ++ url) now = some [] := by
    unfold Store.getBytesAt Store.getAt
    simp only [hentry, utf8Encode_empty, if_pos hlt]
  have hmiss := not_hitAt_of_empty hbs
  have hm := wrapper_miss_eq expiration func hok hmiss
  refine ⟨?_, ?_⟩
  · rw [hm]
    exact fetchAndCache_fetchCalls expiration func url now _
  · intro v hf
    rw [hm, fetchAndCache_ok hf]
    refine ⟨rfl, ?_⟩
    show setexAt _ ("cache:" ++ url) expiration v now ("cache:" ++ url) = _
    unfold setexAt
    exact Store.set_same _ _ _

theorem C9_empty_string_is_miss_witness :
    (wrapper 10 (fun _ => (Except.ok "A" : Except Unit String)) "u" 0
      emptyBodyStore).fetchCalls = 1 ∧
    (wrapper 10 (fun _ => (Except.ok "A" : Except Unit String)) "u" 0
      emptyBodyStore).ret = Except.ok "A" ∧
    (wrapper 10 (fun _ => (Except.ok "A" : Except Unit String)) "u" 0
      emptyBodyStore).store ("cache:" ++ "u") =
      some ⟨RVal.bytes (utf8Encode "A"), some (0 + 10)⟩ := by
  have h := C9_empty_string_is_miss Unit 10 (fun _ => Except.ok "A") "u" 0 100
    emptyBodyStore (by trivial) rfl (by decide)
  have h2 := h.2 "A" rfl
  exact ⟨h.1, h2.1, h2.2⟩

/-- C10: on a hit the wrapper returns the stored bytes decoded as UTF-8;
decoding after encoding is the identity on strings, so a hit on the entry a
miss cached returns exactly the string the fetch returned on that miss. -/
theorem C10_decode_encode :
    (∀ v : String, utf8Decode (utf8Encode v) = some v) ∧
    (∀ (ε : Type) (expiration : Nat) (func : String → Except ε String)
      (url : String) (now : Nat) (s : Store) (bs : List Nat),
      countOkAt s url now →
      Store.getBytesAt s ("cache:" ++ url) now = some bs → bs ≠ [] →
      (wrapper expiration func url now s).ret = decodeRet bs) ∧
    (∀ (ε : Type) (expiration : Nat) (f1 f2 : String → Except ε String)
      (url : String) (t0 t1 : Nat) (s : Store) (v : String),
      countOkAt s url t0 → ¬ hitAt s url t0 → f1 url = Except.ok v →
      v ≠ "" → t1 < t0 + expiration →
      (wrapper expiration f2 url t1
        (wrapper expiration f1 url t0 s).store).ret = Except.ok v) := by
  refine ⟨utf8Decode_utf8Encode, ?_, ?_⟩
  · intro ε expiration func url now s bs hok hbs hne
    rw [wrapper_hit_eq expiration func hok hbs hne]
    unfold decodeRet
    cases utf8Decode bs <;> rfl
  · intro ε expiration f1 f2 url t0 t1 s v hok hmiss hf1 hv ht
    exact (second_call_hit expiration f1 f2 hok hmiss hf1 hv ht).1

theorem C10_decode_encode_witness :
    utf8Decode (utf8Encode "héllo✓") = some "héllo✓" ∧
    (wrapper 10 (fun _ => (Except.ok "B" : Except Unit String)) "u" 7
      cachedAStore).ret = decodeRet (utf8Encode "A") ∧
    (wrapper 10 (fun _ => (Except.ok "B" : Except Unit String)) "u" 9
      (wrapper 10 (fun _ => (Except.ok "A" : Except Unit String)) "u" 2
        emptyStore).store).ret = Except.ok "A" := by
  refine ⟨C10_decode_encode.1 "héllo✓", ?_, ?_⟩
  · exact C10_decode_encode.2.1 Unit 10 (fun _ => Except.ok "B") "u" 7
      cachedAStore (utf8Encode "A") (by trivial) rfl (by decide)
  · exact C10_decode_encode.2.2 Unit 10 (fun _ => Except.ok "A")
      (fun _ => Except.ok "B") "u" 2 9 emptyStore "A" (by trivial)
      (fun hh => hh) rfl (by decide) (by decide)
